import Mathlib

/-!
# Finance-tracker ledger: shallow embedding and verification

This file embeds the in-memory ledger engine of the finance-tracker
repository (`app/storage/transaction_dict.py`, `app/factories/transaction_factory.py`,
`utils/deserializer.py`) and proves properties of it.

Modelling conventions:
* A calendar date is represented by a natural number whose numeric order is the
  chronological order of the dates it stands for (e.g. `20240101` for the ISO
  string `"2024-01-01"`); the Python code parses date strings with
  `datetime.strptime` and compares/sorts the parsed dates, which this order
  models faithfully for the valid dates the ledger may contain.
* `TransactionDictManager.data` is a `defaultdict(list)`; it is embedded as an
  insertion-ordered association list `List (Nat × List Transaction)`, and every
  subscript access `self.data[d]` is embedded by `ddGet`, which inserts the
  fresh key `d` with an empty bucket at the end of the mapping when `d` is
  absent — exactly the `defaultdict` side effect.
* Python `float` amounts are modelled as rationals `ℚ`.
* Exceptions are modelled by `Except Err`; operations that in Python may
  mutate `self.data` return the resulting mapping explicitly.
-/

namespace FinanceTracker

/-- The error kinds raised by the code: the five `FinanceTrackerError`
subclasses of `utils/errors.py`, plus the two Python built-ins the storage
layer can raise (`IndexError` from `delete_transaction`'s bound check and
`ValueError` from `list.remove`). -/
inductive Err where
  | emptyInput
  | invalidInput
  | transactionNotFound
  | categoryNotFound
  | dateNotFound
  | indexOutOfRange
  | valueError
deriving DecidableEq, Repr

/-- One stored transaction record: the dict built by
`TransactionDictManager.add_transaction` with keys
`t_type`, `category`, `amount`, `date`, `description`. -/
structure Transaction where
  t_type : String
  category : String
  amount : ℚ
  date : Nat
  description : String
deriving DecidableEq, Repr

/-- The manager's `self.data`: an insertion-ordered mapping from date keys to
buckets of transactions. -/
abbrev Ledger := List (Nat × List Transaction)

/-- The date keys of the mapping, in insertion order (`self.data.keys()`). -/
def keys (data : Ledger) : List Nat := data.map Prod.fst

/-- Mapping lookup without the defaultdict side effect (`k in data` / the
value `data` holds for `k`). -/
def lookupKey : Ledger → Nat → Option (List Transaction)
  | [], _ => none
  | (k, v) :: rest, d => if k = d then some v else lookupKey rest d

/-- Whether `d` is a key of the mapping. -/
def isKey (data : Ledger) (d : Nat) : Bool := (lookupKey data d).isSome

/-- Subscript read on the `defaultdict`: `self.data[d]` returns the bucket of
`d`, inserting `d` with an empty bucket (at the end, as a fresh dict entry)
when it was absent. Returns the bucket and the possibly-extended mapping. -/
def ddGet : Ledger → Nat → List Transaction × Ledger
  | [], d => ([], [(d, [])])
  | (k, v) :: rest, d =>
    if k = d then (v, (k, v) :: rest)
    else
      let r := ddGet rest d
      (r.1, (k, v) :: r.2)

/-- `self.data[d].append(t)` on the `defaultdict`: appends to the existing
bucket, or creates the key (at the end) with a one-element bucket. -/
def ddAppend : Ledger → Nat → Transaction → Ledger
  | [], d, t => [(d, [t])]
  | (k, v) :: rest, d, t =>
    if k = d then (k, v ++ [t]) :: rest else (k, v) :: ddAppend rest d t

/-- Replace the bucket stored under key `d` (models in-place mutation of the
list object held by the dict; keys of a dict are unique, so replacing the
first occurrence is faithful). -/
def setKey : Ledger → Nat → List Transaction → Ledger
  | [], _, _ => []
  | (k, v) :: rest, d, b =>
    if k = d then (k, b) :: rest else (k, v) :: setKey rest d b

/-- `del self.data[d]`: removes the entry for key `d`. -/
def eraseKey : Ledger → Nat → Ledger
  | [], _ => []
  | (k, v) :: rest, d => if k = d then rest else (k, v) :: eraseKey rest d

/-- Total number of stored transactions. -/
def totalCount (data : Ledger) : Nat := (data.map fun kv => kv.2.length).sum

/-- Length of the bucket currently stored under `d` (`0` when the key is
absent). -/
def bucketLen (data : Ledger) (d : Nat) : Nat := ((lookupKey data d).getD []).length

/-! ## String helpers

Character-level embeddings of the Python string predicates the code uses.
They are stated over `String.data` so that the kernel can evaluate them on
concrete inputs. -/

/-- Python `s.lower()` (over the ASCII characters the ledger uses). -/
def pyLower (s : String) : String := ⟨s.data.map Char.toLower⟩

/-- Python `s.strip() == ""` (equivalently: every character is whitespace),
the blank test used by the validators. -/
def pyBlank (s : String) : Bool := s.data.all Char.isWhitespace

/-- Python `s.isdigit()` for ASCII input: non-empty and all characters are
decimal digits. Note a sign character makes this `false`: `"-1".isdigit()`
is `False` in Python. -/
def pyIsDigit (s : String) : Bool := !s.data.isEmpty && s.data.all Char.isDigit

/-- Python `int(s)` on a digit-only string. -/
def strToNat (s : String) : Nat :=
  s.data.foldl (fun n c => 10 * n + (c.toNat - '0'.toNat)) 0

/-- `sorted(dates, key=lambda d: datetime.strptime(d, "%Y-%m-%d"))`: sorting
date keys chronologically. -/
def sortDates (l : List Nat) : List Nat := l.insertionSort (· ≤ ·)

/-! ## Ledger operations (`app/storage/transaction_dict.py`) -/

/-- The record `add_transaction` builds from the factory's fields: the
description defaults to the placeholder `"-"` exactly when the factory's
description is `None`; any actual string (including `""`) is stored
verbatim. -/
def transactionData (t_type category : String) (amount : ℚ) (date : Nat)
    (description : Option String) : Transaction :=
  { t_type := t_type, category := category, amount := amount, date := date,
    description := match description with
      | some s => s
      | none => "-" }

/-- `TransactionDictManager.add_transaction`: appends the record to
`self.data[transaction.date]` (a `defaultdict` subscript, so the key is
created when absent). -/
def add_transaction (data : Ledger) (t_type category : String) (amount : ℚ)
    (date : Nat) (description : Option String) : Ledger :=
  ddAppend data date (transactionData t_type category amount date description)

/-- `get_transactions_by_date_range` together with its returned closure
`inner`. The date-string boundary is already resolved: a blank start string
becomes `none` (no lower bound); a validly formatted start parses to
`some startDate`; `endDate` is the parsed end string (or today's date when
the end string was blank). `inner` raises `InvalidInputError` when a start
bound is present and `start_date > end_date`, else filters the existing
keys by the bound (inclusive on both ends) and returns them sorted
chronologically; an empty filter result is returned as-is (an empty list,
not an error). -/
def get_transactions_by_date_range (data : Ledger) (start? : Option Nat)
    (endDate : Nat) : Except Err (List Nat) :=
  match start? with
  | some startDate =>
    if endDate < startDate then .error .invalidInput
    else
      let filtered := (keys data).filter fun d => decide (startDate ≤ d ∧ d ≤ endDate)
      if filtered.isEmpty then .ok filtered else .ok (sortDates filtered)
  | none =>
    let filtered := (keys data).filter fun d => decide (d ≤ endDate)
    if filtered.isEmpty then .ok filtered else .ok (sortDates filtered)

/-- The display loops `for date in dates: ... self.data[date] ...`: each
subscript is a `defaultdict` read, so absent keys are inserted with empty
buckets; the resulting mapping is returned. -/
def readDates : Ledger → List Nat → Ledger
  | data, [] => data
  | data, d :: rest => readDates (ddGet data d).2 rest

/-- The filter comprehensions
`[date for date in dates if any(p(t) for t in self.data[date])]`: keeps the
dates whose bucket satisfies `p`, threading the `defaultdict` reads through
the mapping. -/
def filterDatesByBucket (p : List Transaction → Bool) :
    Ledger → List Nat → List Nat × Ledger
  | data, [] => ([], data)
  | data, d :: rest =>
    let r1 := ddGet data d
    let r2 := filterDatesByBucket p r1.2 rest
    (if p r1.1 then d :: r2.1 else r2.1, r2.2)

/-- `show_all_transactions_for_all_time`: raises `TransactionNotFoundError`
on an empty mapping, else displays every bucket by sorted date (each display
access `self.data[date]` is on a present key). -/
def show_all_transactions_for_all_time (data : Ledger) :
    Except Err Unit × Ledger :=
  if data.isEmpty then (.error .transactionNotFound, data)
  else (.ok (), readDates data (sortDates (keys data)))

/-- `show_transaction_by_date_range`: raises `TransactionNotFoundError` on an
empty date list, else displays `self.data[date]` for each given date. -/
def show_transaction_by_date_range (data : Ledger) (sorted_dates : List Nat) :
    Except Err Unit × Ledger :=
  if sorted_dates.isEmpty then (.error .transactionNotFound, data)
  else (.ok (), readDates data sorted_dates)

/-- `show_transaction_income_by_range`: empty date list raises
`TransactionNotFoundError`; then keeps the dates holding at least one
`"income"` transaction, raising `TransactionNotFoundError` when none
remain, else displays those dates' buckets. -/
def show_transaction_income_by_range (data : Ledger) (sorted_dates : List Nat) :
    Except Err Unit × Ledger :=
  if sorted_dates.isEmpty then (.error .transactionNotFound, data)
  else
    let fr := filterDatesByBucket (fun b => b.any fun t => t.t_type == "income")
      data sorted_dates
    if fr.1.isEmpty then (.error .transactionNotFound, fr.2)
    else (.ok (), readDates fr.2 fr.1)

/-- `show_transaction_expenses_by_range`: as for income, with type
`"expense"`. -/
def show_transaction_expenses_by_range (data : Ledger) (sorted_dates : List Nat) :
    Except Err Unit × Ledger :=
  if sorted_dates.isEmpty then (.error .transactionNotFound, data)
  else
    let fr := filterDatesByBucket (fun b => b.any fun t => t.t_type == "expense")
      data sorted_dates
    if fr.1.isEmpty then (.error .transactionNotFound, fr.2)
    else (.ok (), readDates fr.2 fr.1)

/-- `show_transaction_by_category`: blank category raises
`InvalidInputError`; an empty date list raises `CategoryNotFoundError`; then
keeps the dates holding a transaction with
`t["category"].lower() == category` — note the comparison lowers the STORED
category but compares it against the raw input string — raising
`TransactionNotFoundError` when none remain, else displays those dates'
buckets. -/
def show_transaction_by_category (data : Ledger) (category : String)
    (sorted_dates : List Nat) : Except Err Unit × Ledger :=
  if pyBlank category then (.error .invalidInput, data)
  else if sorted_dates.isEmpty then (.error .categoryNotFound, data)
  else
    let fr := filterDatesByBucket (fun b => b.any fun t => pyLower t.category == category)
      data sorted_dates
    if fr.1.isEmpty then (.error .transactionNotFound, fr.2)
    else (.ok (), readDates fr.2 fr.1)

/-- The summation loop of `show_total_type_by_range`:
`sum(t["amount"] for date in dates for t in self.data[date] if t["t_type"] == tr_type)`,
threading the `defaultdict` reads. -/
def sumTypeOverDates (tr_type : String) : Ledger → List Nat → ℚ × Ledger
  | data, [] => (0, data)
  | data, d :: rest =>
    let r1 := ddGet data d
    let s1 := ((r1.1.filter fun t => t.t_type == tr_type).map Transaction.amount).sum
    let r2 := sumTypeOverDates tr_type r1.2 rest
    (s1 + r2.1, r2.2)

/-- `show_total_type_by_range`: empty date list raises
`TransactionNotFoundError`; keeps the dates holding at least one transaction
of `tr_type`, raising `TransactionNotFoundError` when none remain; else sums
the amounts of `tr_type` transactions over the kept dates. -/
def show_total_type_by_range (data : Ledger) (tr_type : String)
    (sorted_dates : List Nat) : Except Err ℚ × Ledger :=
  if sorted_dates.isEmpty then (.error .transactionNotFound, data)
  else
    let fr := filterDatesByBucket (fun b => b.any fun t => t.t_type == tr_type)
      data sorted_dates
    if fr.1.isEmpty then (.error .transactionNotFound, fr.2)
    else
      let total := sumTypeOverDates tr_type fr.2 fr.1
      (.ok total.1, total.2)

/-- `show_current_balance`: flattens all buckets, sums the amounts of
`"income"` transactions and of `"expense"` transactions, and reports
`total_income - total_expense`. Reads only `self.data.values()`, so the
mapping is returned unchanged. -/
def show_current_balance (data : Ledger) : ℚ × Ledger :=
  let transactions := (data.map Prod.snd).flatten
  let total_income :=
    ((transactions.filter fun t => t.t_type == "income").map Transaction.amount).sum
  let total_expense :=
    ((transactions.filter fun t => t.t_type == "expense").map Transaction.amount).sum
  (total_income - total_expense, data)

/-- The three shapes the raw date string given to `show_transaction_by_date`
can take after `datetime.strptime` validation: blank, malformed, or a valid
date. -/
inductive DateInput where
  | blank
  | malformed
  | valid (d : Nat)

/-- The transaction list `show_transaction_by_date` builds:
`[t for items in self.data.values() for t in items if t["date"] == d]` —
every stored transaction whose `date` field is `d`, in mapping order. -/
def transactionsOnDate (data : Ledger) (d : Nat) : List Transaction :=
  ((data.map Prod.snd).flatten).filter fun t => t.date == d

/-- The display part of `show_transaction_by_date`: blank date raises
`DateNotFoundError`, malformed date raises `InvalidInputError`, no stored
transaction with that `date` field raises `TransactionNotFoundError`, else
the filtered snapshot list is returned (it is the list the returned deletion
closure is bound to). Only `self.data.values()` is read, so the mapping is
returned unchanged. -/
def show_transaction_by_date (data : Ledger) (input : DateInput) :
    Except Err (List Transaction) × Ledger :=
  match input with
  | .blank => (.error .dateNotFound, data)
  | .malformed => (.error .invalidInput, data)
  | .valid d =>
    let filtered := transactionsOnDate data d
    if filtered.isEmpty then (.error .transactionNotFound, data)
    else (.ok filtered, data)

/-- `list.remove(x)`: removes the first element equal to `x`, or raises
`ValueError` (`none`) when no element is equal. -/
def removeFirst : List Transaction → Transaction → Option (List Transaction)
  | [], _ => none
  | x :: rest, t =>
    if x = t then some rest else (removeFirst rest t).map (x :: ·)

/-- The closure `delete_transaction` returned by `show_transaction_by_date`,
bound to the date `dateKey` and the snapshot list `boundList`
(`filtered_transaction`). A non-digit index string raises
`InvalidInputError` (Python's `str.isdigit`, so a sign character already
fails here); `int(index) - 1` outside `range(len(boundList))` raises
`IndexError`; otherwise the indexed element is popped from the bound list,
removed from `self.data[dateKey]` by `list.remove` (first equal occurrence;
the subscript is a `defaultdict` read), and the key is deleted when its
bucket becomes empty. Returns the popped bound list and the resulting
mapping. -/
def delete_transaction (data : Ledger) (dateKey : Nat)
    (boundList : List Transaction) (index : String) :
    Except Err (List Transaction) × Ledger :=
  if pyIsDigit index then
    let i := strToNat index
    if h : 1 ≤ i ∧ i - 1 < boundList.length then
      let deleted := boundList.get ⟨i - 1, h.2⟩
      let bound2 := boundList.eraseIdx (i - 1)
      let r := ddGet data dateKey
      match removeFirst r.1 deleted with
      | none => (.error .valueError, r.2)
      | some bucket2 =>
        let data2 := setKey r.2 dateKey bucket2
        if bucket2.isEmpty then (.ok bound2, eraseKey data2 dateKey)
        else (.ok bound2, data2)
    else (.error .indexOutOfRange, data)
  else (.error .invalidInput, data)

/-- `to_dict`: `dict(self.data)` — the mapping itself (same keys, same
buckets, same order). -/
def to_dict (data : Ledger) : Ledger := data

/-! ## TransactionFactory setters (`app/factories/transaction_factory.py`) -/

/-- The `t_type` setter: blank raises `EmptyInputError`; anything other than
exactly `"income"` or `"expense"` raises `InvalidInputError`; else the value
is stored. -/
def setter_t_type (s : String) : Except Err String :=
  if pyBlank s then .error .emptyInput
  else if s = "income" ∨ s = "expense" then .ok s
  else .error .invalidInput

/-- The `category` setter: blank raises `EmptyInputError`; else the value is
stored verbatim. -/
def setter_category (s : String) : Except Err String :=
  if pyBlank s then .error .emptyInput else .ok s

/-- Python `float(s)` on the decimal forms the tracker deals in: optional
surrounding whitespace, optional single sign character, then digits with at
most one decimal point and at least one digit (`"12"`, `"12.5"`, `"12."`,
`".5"`). Exponent, infinity and nan forms are outside the model. -/
def pyFloat? (s : String) : Option ℚ :=
  let mantissa : List Char → Option ℚ := fun cs =>
    let intPart := cs.takeWhile Char.isDigit
    let intVal : ℚ := (intPart.foldl (fun n c => 10 * n + (c.toNat - '0'.toNat)) 0 : Nat)
    match cs.dropWhile Char.isDigit with
    | [] => if intPart.isEmpty then none else some intVal
    | '.' :: frac =>
      if frac.all Char.isDigit ∧ ¬(intPart.isEmpty ∧ frac.isEmpty) then
        some (intVal +
          (frac.foldl (fun n c => 10 * n + (c.toNat - '0'.toNat)) 0 : Nat) /
            (10 : ℚ) ^ frac.length)
      else none
    | _ => none
  match (s.data.dropWhile Char.isWhitespace).reverse.dropWhile Char.isWhitespace
      |>.reverse with
  | [] => none
  | '-' :: rest => (mantissa rest).map Neg.neg
  | '+' :: rest => mantissa rest
  | cs => mantissa cs

/-- The `amount` setter: blank raises `EmptyInputError`; a string
`float` cannot parse raises `InvalidInputError`; a parsed negative value
raises `InvalidInputError`; else the parsed number is stored (zero is
accepted, as `amount < 0` is the only value check). -/
def setter_amount (s : String) : Except Err ℚ :=
  if pyBlank s then .error .emptyInput
  else
    match pyFloat? s with
    | none => .error .invalidInput
    | some q => if q < 0 then .error .invalidInput else .ok q

/-! ## Deserialization (`utils/deserializer.py`) -/

/-- Re-validation of one snapshot item through the factory setters, as
`deserialize_transactions` performs it. The stored `amount` is converted by
`str(...)` and re-parsed by the amount setter; `str`/`float` round-tripping
is exact in Python and `str` of a number is never blank, so it is modelled
as re-checking the sign of the rational value. The stored `date` field is a
valid date the original setter accepted, so the date setter's re-parse is
the identity on it. The description setter stores its argument as-is. -/
def deserialize_item (item : Transaction) : Except Err Transaction := do
  let tt ← setter_t_type item.t_type
  let c ← setter_category item.category
  let a ← if item.amount < 0 then Except.error Err.invalidInput else .ok item.amount
  .ok { t_type := tt, category := c, amount := a, date := item.date,
        description := item.description }

/-- The inner loop of `deserialize_transactions`: rebuilds each item of one
snapshot bucket through the factory and `add_transaction` (the factory's
description is the stored string, never `None`, so it is passed as
`some`). -/
def deserialize_bucket : Ledger → List Transaction → Except Err Ledger
  | mgr, [] => .ok mgr
  | mgr, item :: rest => do
    let t ← deserialize_item item
    deserialize_bucket
      (add_transaction mgr t.t_type t.category t.amount t.date (some t.description))
      rest

/-- `deserialize_transactions`: iterates the snapshot's entries in order,
re-adding every item of every bucket to the manager (the entry key itself is
unused — `add_transaction` keys on the item's own `date` field). -/
def deserialize_transactions : Ledger → Ledger → Except Err Ledger
  | [], mgr => .ok mgr
  | (_k, items) :: rest, mgr => do
    let mgr2 ← deserialize_bucket mgr items
    deserialize_transactions rest mgr2

/-! ## Supporting lemmas -/

theorem isKey_of_mem_keys {data : Ledger} {d : Nat} (h : d ∈ keys data) :
    isKey data d = true := by
  induction data with
  | nil => simp [keys] at h
  | cons kv rest ih =>
    cases kv with
    | mk k v =>
      simp only [keys, List.map_cons, List.mem_cons] at h
      by_cases hk : k = d
      · simp [isKey, lookupKey, hk]
      · simp only [isKey, lookupKey, if_neg hk]
        exact ih (h.resolve_left fun he => hk he.symm)

theorem ddGet_of_lookup {data : Ledger} {d : Nat} {b : List Transaction}
    (h : lookupKey data d = some b) : ddGet data d = (b, data) := by
  induction data with
  | nil => simp [lookupKey] at h
  | cons kv rest ih =>
    cases kv with
    | mk k v =>
      by_cases hk : k = d
      · simp only [lookupKey, if_pos hk] at h
        simp [ddGet, hk, Option.some_inj.mp h]
      · simp only [lookupKey, if_neg hk] at h
        simp [ddGet, hk, ih h]

theorem ddGet_snd_of_isKey {data : Ledger} {d : Nat} (h : isKey data d = true) :
    (ddGet data d).2 = data := by
  rw [isKey, Option.isSome_iff_exists] at h
  obtain ⟨b, hb⟩ := h
  rw [ddGet_of_lookup hb]

theorem readDates_of_isKey {data : Ledger} {l : List Nat}
    (h : ∀ d ∈ l, isKey data d = true) : readDates data l = data := by
  induction l with
  | nil => rfl
  | cons d rest ih =>
    have hd := ddGet_snd_of_isKey (h d (List.mem_cons_self d rest))
    simp only [readDates, hd]
    exact ih fun x hx => h x (List.mem_cons_of_mem d hx)

theorem filterDatesByBucket_fst_subset (p : List Transaction → Bool) :
    ∀ (data : Ledger) (l : List Nat) (d : Nat),
      d ∈ (filterDatesByBucket p data l).1 → d ∈ l := by
  intro data l
  induction l generalizing data with
  | nil => intro d h; simp [filterDatesByBucket] at h
  | cons x rest ih =>
    intro d h
    simp only [filterDatesByBucket] at h
    by_cases hp : p (ddGet data x).1
    · simp only [hp, if_true, List.mem_cons] at h
      rcases h with h | h
      · exact h ▸ List.mem_cons_self x rest
      · exact List.mem_cons_of_mem x (ih _ _ h)
    · simp only [hp, if_false] at h
      exact List.mem_cons_of_mem x (ih _ _ h)

theorem filterDatesByBucket_snd_of_isKey (p : List Transaction → Bool)
    {data : Ledger} {l : List Nat} (h : ∀ d ∈ l, isKey data d = true) :
    (filterDatesByBucket p data l).2 = data := by
  induction l with
  | nil => rfl
  | cons x rest ih =>
    have hx := ddGet_snd_of_isKey (h x (List.mem_cons_self x rest))
    simp only [filterDatesByBucket, hx]
    exact ih fun d hd => h d (List.mem_cons_of_mem x hd)

theorem filterThenRead (p : List Transaction → Bool) {data : Ledger}
    {l : List Nat} (h : ∀ d ∈ l, isKey data d = true) :
    (filterDatesByBucket p data l).2 = data ∧
    readDates (filterDatesByBucket p data l).2 (filterDatesByBucket p data l).1
      = data := by
  have h2 := filterDatesByBucket_snd_of_isKey p h
  refine ⟨h2, ?_⟩
  rw [h2]
  exact readDates_of_isKey fun d hd =>
    h d (filterDatesByBucket_fst_subset p data l d hd)

theorem sumTypeOverDates_snd_of_isKey (tr_type : String) {data : Ledger}
    {l : List Nat} (h : ∀ d ∈ l, isKey data d = true) :
    (sumTypeOverDates tr_type data l).2 = data := by
  induction l with
  | nil => rfl
  | cons x rest ih =>
    have hx := ddGet_snd_of_isKey (h x (List.mem_cons_self x rest))
    simp only [sumTypeOverDates, hx]
    exact ih fun d hd => h d (List.mem_cons_of_mem x hd)

theorem mem_sortDates {l : List Nat} {d : Nat} : d ∈ sortDates l ↔ d ∈ l :=
  (List.perm_insertionSort _ l).mem_iff

/-! ## Sample transactions for concrete instances -/

def txSalary : Transaction := ⟨"income", "Salary", 100, 20240101, "-"⟩

def txFood : Transaction := ⟨"expense", "Food", 40, 20240102, "Lunch"⟩

def sampleLedger : Ledger := [(20240101, [txSalary]), (20240102, [txFood])]

/-! ## Claim C2 -/

/-- C2 (amended): when every date key passed in is present in the ledger,
each query/display/aggregate operation
(`show_all_transactions_for_all_time`, `show_transaction_by_date_range`,
`show_transaction_income_by_range`, `show_transaction_expenses_by_range`,
`show_transaction_by_category`, `show_total_type_by_range`,
`show_current_balance`, `show_transaction_by_date`) leaves the
date-to-transactions mapping identical to what it was before the call.
(Passing an absent key is excluded: `self.data` is a `defaultdict`, so a
query subscript on an absent key inserts it with an empty bucket — see the
counterexample.) -/
theorem queries_preserve_mapping_of_present_keys (data : Ledger)
    (dates : List Nat) (category tr_type : String) (inp : DateInput)
    (hk : ∀ d ∈ dates, isKey data d = true) :
    (show_all_transactions_for_all_time data).2 = data ∧
    (show_transaction_by_date_range data dates).2 = data ∧
    (show_transaction_income_by_range data dates).2 = data ∧
    (show_transaction_expenses_by_range data dates).2 = data ∧
    (show_transaction_by_category data category dates).2 = data ∧
    (show_total_type_by_range data tr_type dates).2 = data ∧
    (show_current_balance data).2 = data ∧
    (show_transaction_by_date data inp).2 = data := by
  refine ⟨?_, ?_, ?_, ?_, ?_, ?_, ?_, ?_⟩
  · unfold show_all_transactions_for_all_time
    split
    · rfl
    · exact readDates_of_isKey fun d hd => isKey_of_mem_keys (mem_sortDates.mp hd)
  · unfold show_transaction_by_date_range
    split
    · rfl
    · exact readDates_of_isKey hk
  · unfold show_transaction_income_by_range
    split
    · rfl
    · dsimp only
      split
      · exact (filterThenRead _ hk).1
      · exact (filterThenRead _ hk).2
  · unfold show_transaction_expenses_by_range
    split
    · rfl
    · dsimp only
      split
      · exact (filterThenRead _ hk).1
      · exact (filterThenRead _ hk).2
  · unfold show_transaction_by_category
    split
    · rfl
    · split
      · rfl
      · dsimp only
        split
        · exact (filterThenRead _ hk).1
        · exact (filterThenRead _ hk).2
  · unfold show_total_type_by_range
    split
    · rfl
    · dsimp only
      split
      · exact (filterThenRead _ hk).1
      · show (sumTypeOverDates tr_type _ _).2 = data
        rw [(filterThenRead (fun b => b.any fun t => t.t_type == tr_type) hk).1]
        exact sumTypeOverDates_snd_of_isKey tr_type fun d hd =>
          hk d (filterDatesByBucket_fst_subset _ data dates d hd)
  · rfl
  · cases inp with
    | blank => rfl
    | malformed => rfl
    | valid d =>
      unfold show_transaction_by_date
      dsimp only
      split <;> rfl

/-- C2 witness: the query operations applied to the sample ledger with its
own two date keys leave the mapping unchanged. -/
theorem queries_preserve_mapping_witness :
    (show_all_transactions_for_all_time sampleLedger).2 = sampleLedger ∧
    (show_transaction_by_date_range sampleLedger [20240101, 20240102]).2
      = sampleLedger ∧
    (show_transaction_income_by_range sampleLedger [20240101, 20240102]).2
      = sampleLedger ∧
    (show_transaction_expenses_by_range sampleLedger [20240101, 20240102]).2
      = sampleLedger ∧
    (show_transaction_by_category sampleLedger "food" [20240101, 20240102]).2
      = sampleLedger ∧
    (show_total_type_by_range sampleLedger "income" [20240101, 20240102]).2
      = sampleLedger ∧
    (show_current_balance sampleLedger).2 = sampleLedger ∧
    (show_transaction_by_date sampleLedger (.valid 20240101)).2 = sampleLedger :=
  queries_preserve_mapping_of_present_keys sampleLedger [20240101, 20240102]
    "food" "income" (.valid 20240101) (by decide)

/-- C2 counterexample: the claim quantifies over date-key lists that may
contain keys not present in the ledger; displaying the range
`[20240101]` on the empty ledger inserts the absent key with an empty
bucket, so the mapping is not left identical. -/
theorem date_range_display_inserts_absent_key :
    (show_transaction_by_date_range [] [20240101]).2 = [(20240101, [])] ∧
    [(20240101, [])] ≠ ([] : Ledger) := by
  constructor
  · rfl
  · intro h
    exact List.noConfusion h

/-! ## Claim C1 -/

/-- C1 (code bug): the date filter of `show_transaction_by_category`
compares `t["category"].lower()` against the RAW input string, so an input
category that differs from the stored category only in letter case — here
`"FOOD"` against the stored `"Food"` — makes the filter miss every
transaction and the call raises `TransactionNotFoundError`, although the
two categories are equal case-insensitively (third conjunct); with the
all-lowercase spelling the same query succeeds (second conjunct). The
display loop of the very same function compares case-insensitively
(`category.strip().lower()`), so the filter's raw comparison is a slip. -/
theorem category_filter_misses_case_insensitive_match :
    show_transaction_by_category [(20240102, [txFood])] "FOOD" [20240102]
      = (.error .transactionNotFound, [(20240102, [txFood])]) ∧
    (show_transaction_by_category [(20240102, [txFood])] "food" [20240102]).1
      = .ok () ∧
    pyLower "Food" = pyLower "FOOD" := by
  refine ⟨rfl, rfl, ?_⟩
  decide

/-! ## Claim C10 -/

theorem lookupKey_ddAppend (data : Ledger) (k : Nat) (t : Transaction) :
    lookupKey (ddAppend data k t) k
      = some (((lookupKey data k).getD []) ++ [t]) := by
  induction data with
  | nil => simp [ddAppend, lookupKey]
  | cons kv rest ih =>
    cases kv with
    | mk k' v =>
      by_cases hk : k' = k
      · simp [ddAppend, lookupKey, hk]
      · simp [ddAppend, lookupKey, hk, ih]

/-- C10: `add_transaction` appends to the date's bucket a record whose
description is the placeholder `"-"` exactly when the builder's description
is `None`; any string description — the empty string `""` included — is
stored verbatim, so a transaction built with description `some ""` is
recorded with description `""`, not `"-"`. -/
theorem add_transaction_description_placeholder (data : Ledger)
    (tt c : String) (a : ℚ) (dt : Nat) (desc? : Option String) :
    lookupKey (add_transaction data tt c a dt desc?) dt
      = some (((lookupKey data dt).getD [])
          ++ [transactionData tt c a dt desc?]) ∧
    (transactionData tt c a dt desc?).description
      = (match desc? with | some s => s | none => "-") ∧
    (transactionData tt c a dt (some "")).description = "" ∧
    (transactionData tt c a dt (some "")).description ≠ "-" := by
  refine ⟨lookupKey_ddAppend data dt _, ?_, rfl, ?_⟩
  · cases desc? <;> rfl
  · show ("" : String) ≠ "-"
    decide

/-! ## Claim C8 -/

/-- The balance as a single signed pass over all stored transactions:
income amounts count positively, expense amounts negatively, anything else
(not constructible through the validated factory) counts zero. -/
def signedTotal (data : Ledger) : ℚ :=
  (((data.map Prod.snd).flatten).map fun t =>
    if t.t_type = "income" then t.amount
    else if t.t_type = "expense" then -t.amount else 0).sum

theorem income_sub_expense_eq_signed (l : List Transaction) :
    ((l.filter fun t => t.t_type == "income").map Transaction.amount).sum -
      ((l.filter fun t => t.t_type == "expense").map Transaction.amount).sum =
    (l.map fun t => if t.t_type = "income" then t.amount
      else if t.t_type = "expense" then -t.amount else 0).sum := by
  induction l with
  | nil => simp
  | cons t rest ih =>
    by_cases hi : t.t_type = "income"
    · have he : ¬t.t_type = "expense" := by rw [hi]; decide
      simp [List.filter_cons, hi, he, ← ih]
      try ring
    · by_cases he : t.t_type = "expense"
      · simp [List.filter_cons, hi, he, ← ih]
        try ring
      · simp [List.filter_cons, hi, he, ← ih]
        try ring

/-- C8: for every ledger, `show_current_balance` reports the sum of all
income amounts minus the sum of all expense amounts over the entire ledger
(equivalently, a signed sum over every stored transaction); the empty
ledger yields `0` with no error; and after adding income `100` and expense
`40` the balance is `60` (Scenario A). -/
theorem current_balance_spec :
    (∀ data : Ledger, (show_current_balance data).1 = signedTotal data) ∧
    (show_current_balance ([] : Ledger)).1 = 0 ∧
    (show_current_balance
        (add_transaction (add_transaction [] "income" "Salary" 100 20240101 none)
          "expense" "Food" 40 20240102 none)).1 = 60 := by
  refine ⟨?_, by simp [show_current_balance], ?_⟩
  · intro data
    unfold show_current_balance signedTotal
    dsimp only
    exact income_sub_expense_eq_signed _
  · simp [show_current_balance, add_transaction, ddAppend, transactionData]
    norm_num

/-! ## Claim C9 -/

/-- C9: the amount setter fails with `EmptyInput` exactly on blank input,
fails with `InvalidInput` exactly when the non-blank input is unparseable
as a number or parses to a negative value, and otherwise stores the parsed
value (zero included); concretely `"-5"` fails with `InvalidInput`, `""`
fails with `EmptyInput`, and `"12.5"` succeeds with amount `12.5`
(Scenario C). -/
theorem setter_amount_spec (s : String) :
    (setter_amount s = .error .emptyInput ↔ pyBlank s = true) ∧
    (setter_amount s = .error .invalidInput ↔ pyBlank s = false ∧
      (pyFloat? s = none ∨ ∃ q, pyFloat? s = some q ∧ q < 0)) ∧
    (∀ q, pyBlank s = false → pyFloat? s = some q → 0 ≤ q →
      setter_amount s = .ok q) ∧
    setter_amount "-5" = .error .invalidInput ∧
    setter_amount "" = .error .emptyInput ∧
    setter_amount "12.5" = .ok (25 / 2) := by
  have hC : setter_amount "12.5" = .ok (25 / 2) := by
    have h : pyFloat? "12.5" = some ((12 : ℚ) + 5 / 10 ^ 1) := by
      simp [pyFloat?]
    simp [setter_amount, h, pyBlank]
    norm_num
  refine ⟨?_, ?_, ?_, by rfl, rfl, hC⟩
  · by_cases hb : pyBlank s
    · simp [setter_amount, hb]
    · cases hf : pyFloat? s with
      | none => simp [setter_amount, hb, hf]
      | some q =>
        by_cases hq : q < 0
        · simp [setter_amount, hb, hf, hq]
        · simp [setter_amount, hb, hf, hq]
  · by_cases hb : pyBlank s
    · simp [setter_amount, hb]
    · have hb' : pyBlank s = false := by simpa using hb
      cases hf : pyFloat? s with
      | none => simp [setter_amount, hb, hf, hb']
      | some q =>
        by_cases hq : q < 0
        · have heq : setter_amount s = .error .invalidInput := by
            simp [setter_amount, hb, hf, hq]
          rw [heq]
          simp [hb', hq]
        · have heq : setter_amount s = .ok q := by
            simp [setter_amount, hb, hf, hq]
          rw [heq]
          simp [hb', hq]
  · intro q hb hf hq
    unfold setter_amount
    rw [if_neg (by simp [hb]), hf]
    dsimp only
    rw [if_neg (not_lt.mpr hq)]

/-- C9 witness: the success clause applied at the concrete input `"12.5"`,
whose parse is `25/2 ≥ 0`, yields the stored amount `12.5`. -/
theorem setter_amount_spec_witness : setter_amount "12.5" = .ok (25 / 2) :=
  (setter_amount_spec "12.5").2.2.1 (25 / 2) (by decide)
    (by simp [pyFloat?]; norm_num) (by norm_num)

/-! ## Claim C4 -/

theorem resolveBranch (l : List Nat) (p : Nat → Bool) :
    ∃ r, (if (l.filter p).isEmpty then Except.ok (ε := Err) (l.filter p)
          else .ok (sortDates (l.filter p))) = .ok r ∧
      (∀ d, d ∈ r ↔ d ∈ l ∧ p d = true) ∧ r.Sorted (· ≤ ·) := by
  by_cases h : (l.filter p).isEmpty
  · refine ⟨l.filter p, by simp [h], fun d => List.mem_filter, ?_⟩
    rw [List.isEmpty_iff] at h
    rw [h]
    exact List.sorted_nil
  · refine ⟨sortDates (l.filter p), by simp [h], ?_, ?_⟩
    · intro d
      rw [mem_sortDates]
      exact List.mem_filter
    · exact List.sorted_insertionSort _ _

/-- C4: for validly parsed bounds (when a start bound is present it does not
exceed the end), the resolver succeeds, and the returned date-key list
contains exactly the ledger keys `d` with `start ≤ d ≤ end` (just
`d ≤ end` when no start bound was given), is sorted ascending, and is the
empty list — not an error — when no ledger key satisfies the bound. -/
theorem date_range_resolver_spec (data : Ledger) (start? : Option Nat)
    (endDate : Nat) (hse : ∀ s, start? = some s → s ≤ endDate) :
    ∃ r, get_transactions_by_date_range data start? endDate = .ok r ∧
      (∀ d, d ∈ r ↔
        d ∈ keys data ∧ (∀ s, start? = some s → s ≤ d) ∧ d ≤ endDate) ∧
      r.Sorted (· ≤ ·) ∧
      ((∀ d ∈ keys data, ¬((∀ s, start? = some s → s ≤ d) ∧ d ≤ endDate)) →
        r = []) := by
  have main : ∃ r, get_transactions_by_date_range data start? endDate = .ok r ∧
      (∀ d, d ∈ r ↔
        d ∈ keys data ∧ (∀ s, start? = some s → s ≤ d) ∧ d ≤ endDate) ∧
      r.Sorted (· ≤ ·) := by
    cases start? with
    | none =>
      obtain ⟨r, hr, hmem, hsort⟩ :=
        resolveBranch (keys data) (fun d => decide (d ≤ endDate))
      refine ⟨r, ?_, ?_, hsort⟩
      · unfold get_transactions_by_date_range
        dsimp only
        exact hr
      · intro d
        rw [hmem d]
        simp
    | some s =>
      have hs : s ≤ endDate := hse s rfl
      obtain ⟨r, hr, hmem, hsort⟩ :=
        resolveBranch (keys data) (fun d => decide (s ≤ d ∧ d ≤ endDate))
      refine ⟨r, ?_, ?_, hsort⟩
      · unfold get_transactions_by_date_range
        dsimp only
        rw [if_neg (not_lt.mpr hs)]
        exact hr
      · intro d
        rw [hmem d]
        constructor
        · rintro ⟨hd, hp⟩
          rw [decide_eq_true_iff] at hp
          exact ⟨hd, fun s' hs' => (Option.some_inj.mp hs') ▸ hp.1, hp.2⟩
        · rintro ⟨hd, hlo, hhi⟩
          exact ⟨hd, decide_eq_true_iff.mpr ⟨hlo s rfl, hhi⟩⟩
  obtain ⟨r, hr, hmem, hsort⟩ := main
  refine ⟨r, hr, hmem, hsort, ?_⟩
  intro hno
  rw [List.eq_nil_iff_forall_not_mem]
  intro a ha
  obtain ⟨hak, hab⟩ := (hmem a).mp ha
  exact hno a hak hab

/-- C4 witness: resolving the sample ledger with start `20240101` and end
`20240103` succeeds with the stated membership, sortedness and
absence-as-empty properties. -/
theorem date_range_resolver_spec_witness :
    ∃ r, get_transactions_by_date_range sampleLedger (some 20240101) 20240103
        = .ok r ∧
      (∀ d, d ∈ r ↔ d ∈ keys sampleLedger ∧
        (∀ s, (some 20240101 : Option Nat) = some s → s ≤ d) ∧ d ≤ 20240103) ∧
      r.Sorted (· ≤ ·) ∧
      ((∀ d ∈ keys sampleLedger,
          ¬((∀ s, (some 20240101 : Option Nat) = some s → s ≤ d) ∧
            d ≤ 20240103)) → r = []) :=
  date_range_resolver_spec sampleLedger (some 20240101) 20240103
    (by intro s hs; injection hs with h; omega)

/-! ## Claim C6 -/

theorem filter_nodup_single {l : List Nat} {s : Nat} (hnd : l.Nodup)
    (hs : s ∈ l) :
    (l.filter fun d => decide (s ≤ d ∧ d ≤ s)) = [s] := by
  induction l with
  | nil => simp at hs
  | cons x rest ih =>
    obtain ⟨hx, hndr⟩ := List.nodup_cons.mp hnd
    rcases List.mem_cons.mp hs with h | h
    · subst h
      have hrest : rest.filter (fun d => decide (s ≤ d ∧ d ≤ s)) = [] := by
        rw [List.filter_eq_nil_iff]
        intro a ha hc
        rw [decide_eq_true_iff] at hc
        exact hx (le_antisymm hc.2 hc.1 ▸ ha)
      rw [List.filter_cons, if_pos (by simp), hrest]
    · have hxne : ¬(s ≤ x ∧ x ≤ s) := by
        intro hc
        exact hx (le_antisymm hc.1 hc.2 ▸ h)
      simp only [List.filter_cons, decide_eq_true_iff]
      rw [if_neg hxne]
      exact ih hndr h

/-- C6: with both bound strings validly formatted (so both parse), binding a
start bound and then resolving with an end date fails with `InvalidInput`
exactly when `start > end`; and a one-day range `start = end` is accepted
and resolves to exactly that single date key when the ledger contains it
(ledger keys are dict keys, hence distinct). -/
theorem start_after_end_spec (data : Ledger) (s e : Nat) :
    (get_transactions_by_date_range data (some s) e = .error .invalidInput ↔
      e < s) ∧
    ((keys data).Nodup → s ∈ keys data →
      get_transactions_by_date_range data (some s) s = .ok [s]) := by
  constructor
  · unfold get_transactions_by_date_range
    dsimp only
    constructor
    · intro hc
      by_contra hlt
      rw [if_neg hlt] at hc
      split at hc <;> cases hc
    · intro hlt
      rw [if_pos hlt]
  · intro hnd hs
    unfold get_transactions_by_date_range
    dsimp only
    rw [if_neg (lt_irrefl s), filter_nodup_single hnd hs]
    rfl

/-- C6 witness: resolving the sample ledger with start `2024-05-01` and end
`2024-01-01` (Scenario F) fails with `InvalidInput`, and the one-day range
on `2024-01-01` resolves to exactly that key. -/
theorem start_after_end_spec_witness :
    get_transactions_by_date_range sampleLedger (some 20240501) 20240101
        = .error .invalidInput ∧
    get_transactions_by_date_range sampleLedger (some 20240101) 20240101
        = .ok [20240101] :=
  ⟨(start_after_end_spec sampleLedger 20240501 20240101).1.mpr (by omega),
   (start_after_end_spec sampleLedger 20240101 20240101).2 (by decide)
     (by decide)⟩

/-! ## Claim C3 -/

/-- C3 (amended): for every bound list and index string, the deletion
closure fails with `InvalidInput` exactly when the index string is not a
digit-only string (Python's `str.isdigit`; a sign character as in `"-1"`
already fails this test, so `"-1"` gets `InvalidInput` rather than
`IndexOutOfRange`), fails with `IndexOutOfRange` exactly when the index is
a digit string whose value lies outside `[1, len(boundList)]` (e.g. `"0"`),
and on each of these two failures the ledger is left completely
unchanged — both checks run before any mutation. -/
theorem delete_error_spec (data : Ledger) (dateKey : Nat)
    (bound : List Transaction) (index : String) (hne : bound ≠ []) :
    ((delete_transaction data dateKey bound index).1
        = .error .invalidInput ↔ pyIsDigit index = false) ∧
    ((delete_transaction data dateKey bound index).1
        = .error .indexOutOfRange ↔ pyIsDigit index = true ∧
          (strToNat index < 1 ∨ bound.length < strToNat index)) ∧
    ((delete_transaction data dateKey bound index).1 = .error .invalidInput →
      (delete_transaction data dateKey bound index).2 = data) ∧
    ((delete_transaction data dateKey bound index).1 = .error .indexOutOfRange →
      (delete_transaction data dateKey bound index).2 = data) := by
  by_cases hd : pyIsDigit index
  · by_cases hr : 1 ≤ strToNat index ∧ strToNat index - 1 < bound.length
    · have houtcome :
          (delete_transaction data dateKey bound index).1 = .error .valueError ∨
          ∃ b2, (delete_transaction data dateKey bound index).1 = .ok b2 := by
        unfold delete_transaction
        rw [if_pos hd, dif_pos hr]
        dsimp only
        cases removeFirst (ddGet data dateKey).1
            (bound.get ⟨strToNat index - 1, hr.2⟩) with
        | none => left; rfl
        | some b2 =>
          right
          refine ⟨bound.eraseIdx (strToNat index - 1), ?_⟩
          dsimp only
          split <;> rfl
      obtain hvc | ⟨b2, hok⟩ := houtcome
      · refine ⟨by simp [hvc, hd], ?_, by simp [hvc], by simp [hvc]⟩
        rw [hvc]
        simp only [hd, true_and]
        constructor
        · intro hc; cases hc
        · intro hc; omega
      · refine ⟨by simp [hok, hd], ?_, by simp [hok], by simp [hok]⟩
        rw [hok]
        simp only [hd, true_and]
        constructor
        · intro hc; cases hc
        · intro hc; omega
    · have heq : delete_transaction data dateKey bound index
          = (.error .indexOutOfRange, data) := by
        unfold delete_transaction
        rw [if_pos hd, dif_neg hr]
      rw [heq]
      refine ⟨by simp [hd], ?_, by simp, fun _ => rfl⟩
      simp only [hd, true_and]
      constructor
      · intro _; omega
      · intro _; trivial
  · have heq : delete_transaction data dateKey bound index
        = (.error .invalidInput, data) := by
      unfold delete_transaction
      rw [if_neg hd]
    rw [heq]
    have hd' : pyIsDigit index = false := by simpa using hd
    refine ⟨by simp [hd'], by simp [hd'], fun _ => rfl, by simp⟩

/-- C3 witness: for the sample ledger, bound list `[txFood]` and index
`"0"` (a digit string below the valid 1-based range), the failure is
`IndexOutOfRange` — not `InvalidInput` — and the ledger is unchanged. -/
theorem delete_error_spec_witness :
    ((delete_transaction sampleLedger 20240102 [txFood] "0").1
        = .error .invalidInput ↔ pyIsDigit "0" = false) ∧
    ((delete_transaction sampleLedger 20240102 [txFood] "0").1
        = .error .indexOutOfRange ↔ pyIsDigit "0" = true ∧
          (strToNat "0" < 1 ∨ [txFood].length < strToNat "0")) ∧
    ((delete_transaction sampleLedger 20240102 [txFood] "0").1
        = .error .invalidInput →
      (delete_transaction sampleLedger 20240102 [txFood] "0").2
        = sampleLedger) ∧
    ((delete_transaction sampleLedger 20240102 [txFood] "0").1
        = .error .indexOutOfRange →
      (delete_transaction sampleLedger 20240102 [txFood] "0").2
        = sampleLedger) :=
  delete_error_spec sampleLedger 20240102 [txFood] "0"
    (fun h => List.noConfusion h)

/-- C3 counterexample: the claim calls `"-1"` an integer string outside
`[1, len]` and so expects `IndexOutOfRange` for it, but the code's
`str.isdigit` check rejects the sign character first: deleting with index
`"-1"` fails with `InvalidInput`, a different error kind. -/
theorem delete_negative_index_counterexample :
    delete_transaction [(20240102, [txFood])] 20240102 [txFood] "-1"
      = (.error .invalidInput, [(20240102, [txFood])]) ∧
    Err.invalidInput ≠ Err.indexOutOfRange := by
  refine ⟨rfl, by decide⟩

/-! ## Claim C5 -/

theorem lookupKey_eq_none_iff {data : Ledger} {d : Nat} :
    lookupKey data d = none ↔ d ∉ keys data := by
  induction data with
  | nil => simp [lookupKey, keys]
  | cons kv rest ih =>
    cases kv with
    | mk k v =>
      rw [lookupKey, keys, List.map_cons, List.mem_cons, not_or]
      by_cases hk : k = d
      · rw [if_pos hk]
        constructor
        · intro h; cases h
        · intro h; exact absurd hk.symm h.1
      · rw [if_neg hk]
        constructor
        · intro h; exact ⟨fun he => hk he.symm, ih.mp h⟩
        · intro h; exact ih.mpr h.2

theorem transactionsOnDate_cons (k : Nat) (v : List Transaction)
    (rest : Ledger) (d : Nat) :
    transactionsOnDate ((k, v) :: rest) d
      = v.filter (fun t => t.date == d) ++ transactionsOnDate rest d := by
  unfold transactionsOnDate
  simp [List.filter_append]

theorem transactionsOnDate_not_key {data : Ledger} {d : Nat}
    (hwf : ∀ kv ∈ data, ∀ t ∈ kv.2, t.date = kv.1) (h : d ∉ keys data) :
    transactionsOnDate data d = [] := by
  induction data with
  | nil => rfl
  | cons kv rest ih =>
    cases kv with
    | mk k v =>
      simp only [keys, List.map_cons, List.mem_cons, not_or] at h
      rw [transactionsOnDate_cons]
      have hv : v.filter (fun t => t.date == d) = [] := by
        rw [List.filter_eq_nil_iff]
        intro t ht hc
        rw [beq_iff_eq] at hc
        have hdate := hwf (k, v) (List.mem_cons_self _ _) t ht
        rw [hc] at hdate
        exact h.1 hdate
      rw [hv, List.nil_append]
      exact ih (fun kv hkv => hwf kv (List.mem_cons_of_mem _ hkv)) h.2

theorem transactionsOnDate_eq_bucket {data : Ledger} {d : Nat}
    {b : List Transaction} (hnd : (keys data).Nodup)
    (hwf : ∀ kv ∈ data, ∀ t ∈ kv.2, t.date = kv.1)
    (hb : lookupKey data d = some b) : transactionsOnDate data d = b := by
  induction data with
  | nil => simp [lookupKey] at hb
  | cons kv rest ih =>
    cases kv with
    | mk k v =>
      obtain ⟨hknotin, hndr⟩ := List.nodup_cons.mp hnd
      rw [transactionsOnDate_cons]
      by_cases hk : k = d
      · subst hk
        simp only [lookupKey, if_pos rfl] at hb
        have hv : v.filter (fun t => t.date == k) = v := by
          rw [List.filter_eq_self]
          intro t ht
          rw [beq_iff_eq]
          exact hwf (k, v) (List.mem_cons_self _ _) t ht
        have hrest : transactionsOnDate rest k = [] :=
          transactionsOnDate_not_key
            (fun kv hkv => hwf kv (List.mem_cons_of_mem _ hkv)) hknotin
        rw [hv, hrest, List.append_nil, Option.some_inj.mp hb]
      · simp only [lookupKey, if_neg hk] at hb
        have hv : v.filter (fun t => t.date == d) = [] := by
          rw [List.filter_eq_nil_iff]
          intro t ht hc
          rw [beq_iff_eq] at hc
          have hdate := hwf (k, v) (List.mem_cons_self _ _) t ht
          rw [hc] at hdate
          exact hk hdate.symm
        rw [hv, List.nil_append]
        exact ih hndr (fun kv hkv => hwf kv (List.mem_cons_of_mem _ hkv)) hb

theorem removeFirst_of_mem {l : List Transaction} {t : Transaction}
    (h : t ∈ l) :
    ∃ l2, removeFirst l t = some l2 ∧ l2.length + 1 = l.length := by
  induction l with
  | nil => simp at h
  | cons x rest ih =>
    by_cases hx : x = t
    · exact ⟨rest, by simp [removeFirst, hx], rfl⟩
    · obtain ⟨l2, h2, hl⟩ :=
        ih ((List.mem_cons.mp h).resolve_left fun he => hx he.symm)
      exact ⟨x :: l2, by simp [removeFirst, hx, h2], by simp [hl]⟩

theorem lookupKey_setKey_self {data : Ledger} {d : Nat}
    (b : List Transaction) (h : isKey data d = true) :
    lookupKey (setKey data d b) d = some b := by
  induction data with
  | nil => simp [isKey, lookupKey] at h
  | cons kv rest ih =>
    cases kv with
    | mk k v =>
      by_cases hk : k = d
      · simp [setKey, lookupKey, hk]
      · simp only [setKey, lookupKey, if_neg hk]
        simp only [isKey, lookupKey, if_neg hk] at h
        exact ih h

theorem eraseKey_setKey (data : Ledger) (d : Nat) (b : List Transaction) :
    eraseKey (setKey data d b) d = eraseKey data d := by
  induction data with
  | nil => rfl
  | cons kv rest ih =>
    cases kv with
    | mk k v =>
      by_cases hk : k = d
      · simp [setKey, eraseKey, hk]
      · simp [setKey, eraseKey, hk, ih]

theorem lookupKey_eraseKey_self {data : Ledger} {d : Nat}
    (hnd : (keys data).Nodup) : lookupKey (eraseKey data d) d = none := by
  induction data with
  | nil => rfl
  | cons kv rest ih =>
    cases kv with
    | mk k v =>
      obtain ⟨hknotin, hndr⟩ := List.nodup_cons.mp hnd
      by_cases hk : k = d
      · rw [eraseKey, if_pos hk]
        rw [lookupKey_eq_none_iff]
        exact hk ▸ hknotin
      · rw [eraseKey, if_neg hk, lookupKey, if_neg hk]
        exact ih hndr

theorem totalCount_setKey {data : Ledger} {d : Nat}
    {b : List Transaction} (b2 : List Transaction)
    (hb : lookupKey data d = some b) :
    totalCount (setKey data d b2) + b.length = totalCount data + b2.length := by
  induction data with
  | nil => simp [lookupKey] at hb
  | cons kv rest ih =>
    cases kv with
    | mk k v =>
      by_cases hk : k = d
      · simp only [lookupKey, if_pos hk] at hb
        rw [Option.some_inj.mp hb]
        simp only [setKey, if_pos hk, totalCount, List.map_cons, List.sum_cons]
        omega
      · simp only [lookupKey, if_neg hk] at hb
        simp only [setKey, if_neg hk, totalCount, List.map_cons, List.sum_cons]
        have := ih hb
        simp only [totalCount] at this
        omega

theorem totalCount_eraseKey {data : Ledger} {d : Nat}
    {b : List Transaction} (hb : lookupKey data d = some b) :
    totalCount (eraseKey data d) + b.length = totalCount data := by
  induction data with
  | nil => simp [lookupKey] at hb
  | cons kv rest ih =>
    cases kv with
    | mk k v =>
      by_cases hk : k = d
      · simp only [lookupKey, if_pos hk] at hb
        rw [Option.some_inj.mp hb]
        simp only [eraseKey, if_pos hk, totalCount, List.map_cons, List.sum_cons]
        omega
      · simp only [lookupKey, if_neg hk] at hb
        simp only [eraseKey, if_neg hk, totalCount, List.map_cons, List.sum_cons]
        have := ih hb
        simp only [totalCount] at this
        omega

/-- C5: for a well-formed ledger (distinct date keys; every stored
transaction's `date` field equals its bucket's key), a date holding the
bucket `bucket` and a digit index in `[1, len(bucket)]`, the deletion
closure — bound to the snapshot list `show_transaction_by_date` builds —
succeeds, the length of the ledger's sequence for that date decreases by
exactly 1 (`0` meaning the key is gone), the ledger's total transaction
count decreases by exactly 1, and the date key is absent afterward if and
only if the removed transaction was the last one for that date. -/
theorem delete_success_spec (data : Ledger) (d : Nat)
    (bucket : List Transaction) (index : String)
    (hnd : (keys data).Nodup)
    (hwf : ∀ kv ∈ data, ∀ t ∈ kv.2, t.date = kv.1)
    (hb : lookupKey data d = some bucket)
    (hdig : pyIsDigit index = true)
    (h1 : 1 ≤ strToNat index) (h2 : strToNat index ≤ bucket.length) :
    ∃ bound2 data2,
      delete_transaction data d (transactionsOnDate data d) index
        = (.ok bound2, data2) ∧
      bucketLen data2 d + 1 = bucket.length ∧
      totalCount data2 + 1 = totalCount data ∧
      (isKey data2 d = false ↔ bucket.length = 1) := by
  have hTD : transactionsOnDate data d = bucket :=
    transactionsOnDate_eq_bucket hnd hwf hb
  rw [hTD]
  have hr : 1 ≤ strToNat index ∧ strToNat index - 1 < bucket.length :=
    ⟨h1, by omega⟩
  have hmem : bucket.get ⟨strToNat index - 1, hr.2⟩ ∈ bucket :=
    bucket.get_mem _ _
  obtain ⟨b2, hrf, hlen⟩ := removeFirst_of_mem hmem
  have hkey : isKey data d = true := by
    unfold isKey
    rw [hb]
    rfl
  unfold delete_transaction
  rw [if_pos hdig, dif_pos hr]
  dsimp only
  rw [ddGet_of_lookup hb]
  dsimp only
  rw [hrf]
  dsimp only
  by_cases hempty : b2.isEmpty
  · rw [if_pos hempty]
    rw [List.isEmpty_iff] at hempty
    subst hempty
    have hlen1 : bucket.length = 1 := by
      simp only [List.length_nil] at hlen
      omega
    refine ⟨_, _, rfl, ?_, ?_, ?_⟩
    · rw [bucketLen, eraseKey_setKey, lookupKey_eraseKey_self hnd]
      simpa using hlen1.symm
    · rw [eraseKey_setKey]
      have := totalCount_eraseKey hb
      omega
    · have hgone : isKey (eraseKey (setKey data d []) d) d = false := by
        rw [isKey, eraseKey_setKey, lookupKey_eraseKey_self hnd]
        rfl
      exact ⟨fun _ => hlen1, fun _ => hgone⟩
  · rw [if_neg hempty]
    have hkey2 : lookupKey (setKey data d b2) d = some b2 :=
      lookupKey_setKey_self b2 hkey
    refine ⟨_, _, rfl, ?_, ?_, ?_⟩
    · rw [bucketLen, hkey2]
      simpa using hlen
    · have := totalCount_setKey b2 hb
      omega
    · have hkeyt : isKey (setKey data d b2) d = true := by
        rw [isKey, hkey2]
        rfl
      rw [hkeyt]
      constructor
      · intro hc; cases hc
      · intro hlen1
        have hb20 : b2.length = 0 := by omega
        rw [List.length_eq_zero] at hb20
        subst hb20
        exact absurd rfl hempty

/-- C5 witness: deleting index `"1"` of the single transaction stored on
`20240101` succeeds, empties and removes that date key, and drops the total
count from 1 to 0. -/
theorem delete_success_spec_witness :
    ∃ bound2 data2,
      delete_transaction [(20240101, [txSalary])] 20240101
          (transactionsOnDate [(20240101, [txSalary])] 20240101) "1"
        = (.ok bound2, data2) ∧
      bucketLen data2 20240101 + 1 = [txSalary].length ∧
      totalCount data2 + 1 = totalCount [(20240101, [txSalary])] ∧
      (isKey data2 20240101 = false ↔ [txSalary].length = 1) :=
  delete_success_spec [(20240101, [txSalary])] 20240101 [txSalary] "1"
    (by decide) (by decide) (by decide) (by decide) (by decide) (by decide)

/-! ## Claim C7 -/

/-- A ledger as only the validated factory can populate it: distinct date
keys, no empty buckets, every transaction keyed under its own `date` field,
`t_type` one of the two enum strings, a non-blank category, and a
non-negative amount. -/
def ValidLedger (data : Ledger) : Prop :=
  (keys data).Nodup ∧ ∀ kv ∈ data, kv.2 ≠ [] ∧ ∀ t ∈ kv.2,
    t.date = kv.1 ∧ (t.t_type = "income" ∨ t.t_type = "expense") ∧
    pyBlank t.category = false ∧ 0 ≤ t.amount

theorem deserialize_item_valid {t : Transaction}
    (ht : t.t_type = "income" ∨ t.t_type = "expense")
    (hc : pyBlank t.category = false) (ha : 0 ≤ t.amount) :
    deserialize_item t = .ok t := by
  have hbt : pyBlank t.t_type = false := by
    rcases ht with h | h <;> rw [h] <;> rfl
  simp only [deserialize_item, setter_t_type, setter_category, hbt,
    Bool.false_eq_true, if_false, if_pos ht, hc, not_lt.mpr ha,
    if_neg (not_lt.mpr ha)]
  rfl

theorem keys_append (a b : Ledger) : keys (a ++ b) = keys a ++ keys b :=
  List.map_append _ _ _

theorem ddAppend_fresh {data : Ledger} {d : Nat} (t : Transaction)
    (h : d ∉ keys data) : ddAppend data d t = data ++ [(d, [t])] := by
  induction data with
  | nil => rfl
  | cons kv rest ih =>
    cases kv with
    | mk k v =>
      simp only [keys, List.map_cons, List.mem_cons, not_or] at h
      rw [ddAppend, if_neg (fun he => h.1 he.symm), ih h.2]
      rfl

theorem ddAppend_last {mgr : Ledger} {d : Nat} (acc : List Transaction)
    (t : Transaction) (h : d ∉ keys mgr) :
    ddAppend (mgr ++ [(d, acc)]) d t = mgr ++ [(d, acc ++ [t])] := by
  induction mgr with
  | nil => simp [ddAppend]
  | cons kv rest ih =>
    cases kv with
    | mk k v =>
      simp only [keys, List.map_cons, List.mem_cons, not_or] at h
      rw [List.cons_append, ddAppend, if_neg (fun he => h.1 he.symm), ih h.2]
      rfl

theorem deserialize_bucket_acc {d : Nat} (items : List Transaction) :
    ∀ (mgr : Ledger) (acc : List Transaction), d ∉ keys mgr →
      (∀ t ∈ items, t.date = d ∧
        (t.t_type = "income" ∨ t.t_type = "expense") ∧
        pyBlank t.category = false ∧ 0 ≤ t.amount) →
      deserialize_bucket (mgr ++ [(d, acc)]) items
        = .ok (mgr ++ [(d, acc ++ items)]) := by
  induction items with
  | nil =>
    intro mgr acc _ _
    simp [deserialize_bucket]
  | cons item rest ih =>
    intro mgr acc h hv
    obtain ⟨hdate, htype, hcat, hamt⟩ := hv item (List.mem_cons_self _ _)
    rw [deserialize_bucket, deserialize_item_valid htype hcat hamt]
    show deserialize_bucket
      (add_transaction (mgr ++ [(d, acc)]) item.t_type item.category
        item.amount item.date (some item.description)) rest = _
    rw [add_transaction]
    have htx : transactionData item.t_type item.category item.amount
        item.date (some item.description) = item := rfl
    rw [htx, hdate, ddAppend_last acc item h,
      ih mgr (acc ++ [item]) h (fun t ht => hv t (List.mem_cons_of_mem _ ht)),
      List.append_assoc, List.singleton_append]

theorem deserialize_bucket_fresh {d : Nat} {items : List Transaction}
    (mgr : Ledger) (hne : items ≠ []) (h : d ∉ keys mgr)
    (hv : ∀ t ∈ items, t.date = d ∧
      (t.t_type = "income" ∨ t.t_type = "expense") ∧
      pyBlank t.category = false ∧ 0 ≤ t.amount) :
    deserialize_bucket mgr items = .ok (mgr ++ [(d, items)]) := by
  cases items with
  | nil => cases hne rfl
  | cons item rest =>
    obtain ⟨hdate, htype, hcat, hamt⟩ := hv item (List.mem_cons_self _ _)
    rw [deserialize_bucket, deserialize_item_valid htype hcat hamt]
    show deserialize_bucket
      (add_transaction mgr item.t_type item.category
        item.amount item.date (some item.description)) rest = _
    rw [add_transaction]
    have htx : transactionData item.t_type item.category item.amount
        item.date (some item.description) = item := rfl
    rw [htx, hdate, ddAppend_fresh item h,
      deserialize_bucket_acc rest mgr [item] h
        (fun t ht => hv t (List.mem_cons_of_mem _ ht)),
      List.singleton_append]

theorem deserialize_app (data : Ledger) :
    ValidLedger data →
    ∀ mgr : Ledger, (∀ k ∈ keys data, k ∉ keys mgr) →
      deserialize_transactions data mgr = .ok (mgr ++ data) := by
  induction data with
  | nil =>
    intro _ mgr _
    simp [deserialize_transactions]
  | cons kv rest ih =>
    intro hv mgr hdisj
    cases kv with
    | mk k items =>
      obtain ⟨hnd, hprops⟩ := hv
      obtain ⟨hknotin, hndr⟩ := List.nodup_cons.mp hnd
      obtain ⟨hne, hval⟩ := hprops (k, items) (List.mem_cons_self _ _)
      have hkfresh : k ∉ keys mgr :=
        hdisj k (by rw [keys, List.map_cons]; exact List.mem_cons_self _ _)
      rw [deserialize_transactions,
        deserialize_bucket_fresh mgr hne hkfresh (fun t ht => hval t ht)]
      show deserialize_transactions rest (mgr ++ [(k, items)]) = _
      have hdisj2 : ∀ k' ∈ keys rest, k' ∉ keys (mgr ++ [(k, items)]) := by
        intro k' hk'
        rw [keys_append]
        rw [List.mem_append]
        rintro (hm | hm)
        · exact hdisj k'
            (by rw [keys, List.map_cons]; exact List.mem_cons_of_mem _ hk') hm
        · have : k' = k := by
            simpa [keys] using hm
          exact hknotin (this ▸ hk')
      have hrest : ValidLedger rest :=
        ⟨hndr, fun kv hkv => hprops kv (List.mem_cons_of_mem _ hkv)⟩
      rw [ih hrest (mgr ++ [(k, items)]) hdisj2,
        List.append_assoc, List.singleton_append]

/-- C7: deserializing a ledger's own snapshot into a fresh manager
(`deserialize_transactions` applied to the `to_dict` output) reproduces the
same date keys, the same per-date transaction ordering, and the same field
values for every transaction — the round trip is lossless. The hypothesis
is exactly the shape `add_transaction` with validated factory input
produces: distinct keys, non-empty buckets, items keyed by their own date,
enum `t_type`, non-blank category, non-negative amount. -/
theorem snapshot_roundtrip_spec (data : Ledger) (h : ValidLedger data) :
    deserialize_transactions (to_dict data) [] = .ok data := by
  have happ := deserialize_app data h [] (by intro k _ hk; simp [keys] at hk)
  rw [to_dict]
  simpa using happ

/-- C7 witness: the sample two-day ledger survives the snapshot round trip
unchanged. -/
theorem snapshot_roundtrip_spec_witness :
    deserialize_transactions (to_dict sampleLedger) [] = .ok sampleLedger :=
  snapshot_roundtrip_spec sampleLedger ⟨by decide, by decide⟩

end FinanceTracker
